import Mathlib

/-!
Verification of the ledger engine of `younis_bank.py`.

The Python source is shallowly embedded: strings become `List Char`,
the SQLite store becomes an explicit `DB` record, every engine
operation becomes a total Lean function returning `Except Err _`
(a raised `ValueError` is an `Except.error`; since each Python
operation runs inside one SQLite transaction that is committed only on
success and rolled back on an exception, an `Except.error` result
leaves the caller's state unchanged, which `runOp` makes explicit).
-/

namespace YounisBank

/-! ## MoneyCodec: `to_cents` / `from_cents` -/

/-- Numeric value of an ASCII digit character. -/
def digitVal (c : Char) : Nat := c.toNat - 48

/-- Python `int(...)` on a string of decimal digits (most significant first). -/
def natOfChars (s : List Char) : Nat := s.foldl (fun a c => 10 * a + digitVal c) 0

/-- Python `str.isdigit` (restricted to ASCII digits): nonempty and all digits. -/
def pyIsDigit (s : List Char) : Bool := !s.isEmpty && s.all Char.isDigit

/-- Python `str.strip`: drop whitespace from both ends. -/
def pyStrip (s : List Char) : List Char :=
  ((s.dropWhile Char.isWhitespace).reverse.dropWhile Char.isWhitespace).reverse

/-- `amount_str.replace(",", "")`: every comma is removed, wherever it occurs. -/
def removeCommas (s : List Char) : List Char := s.filter (fun c => c != ',')

/-- `if amount_str.startswith("$"): amount_str = amount_str[1:]`. -/
def dropDollar (s : List Char) : List Char :=
  if s.head? == some '$' then s.tail else s

/-- `amount_str.count(".")`. -/
def countDot (s : List Char) : Nat := (s.filter (fun c => c == '.')).length

/-- The tail of `to_cents` after the whole/fractional split: default empty
whole part to "0", check the sign/digit shape exactly as the Python
`(whole.startswith("-") and whole[1:].isdigit()) or whole.isdigit()` does,
check `frac.isdigit()`, and combine `sign * (whole_abs * 100 + int(frac))`. -/
def finishParse (whole0 frac : List Char) : Option Int :=
  let whole := if whole0.isEmpty then ['0'] else whole0
  if ((whole.head? == some '-') && pyIsDigit (whole.drop 1) || pyIsDigit whole)
      && pyIsDigit frac then
    let sign : Int := if whole.head? == some '-' then -1 else 1
    some (sign * ((natOfChars (whole.dropWhile (fun c => c == '-')) : Int) * 100
      + (natOfChars frac : Int)))
  else none

/-- `to_cents` after the strip/comma/dollar normalisation: reject more than
one decimal point; split at the (single) point: without a point the
fractional part is "00", with a point it is rejected beyond two digits and
right-padded to two with `(frac + "00")[:2]`. -/
def to_cents_core (t : List Char) : Option Int :=
  if 1 < countDot t then none
  else
    match t.dropWhile (fun c => c != '.') with
    | [] => finishParse t ['0', '0']
    | _ :: fracRaw =>
      if 2 < fracRaw.length then none
      else finishParse (t.takeWhile (fun c => c != '.')) ((fracRaw ++ ['0', '0']).take 2)

/-- `to_cents(amount_str)`: `None` models a raised `ValueError` (InvalidAmount). -/
def to_cents (s : List Char) : Option Int :=
  to_cents_core (dropDollar (removeCommas (pyStrip s)))

/-- Decimal rendering of a natural number, most significant digit first,
with explicit fuel (`fuel > n` suffices); models Python's `f"{n}"`. -/
def renderNatAux : Nat → Nat → List Char
  | 0, _ => []
  | fuel + 1, n =>
    if n < 10 then [Nat.digitChar n]
    else renderNatAux fuel (n / 10) ++ [Nat.digitChar (n % 10)]

/-- Decimal rendering of a natural number, e.g. `renderNat 0 = "0"`. -/
def renderNat (n : Nat) : List Char := renderNatAux (n + 1) n

/-- Python `f"{r:02d}"` for the cents remainder: zero-padded to two digits. -/
def pad2 (r : Nat) : List Char :=
  if r < 10 then '0' :: renderNat r else renderNat r

/-- `from_cents(cents)`: sign (only if negative), then `abs//100`, ".",
`abs%100` zero-padded to two digits. -/
def from_cents (c : Int) : List Char :=
  (if c < 0 then ['-'] else []) ++ renderNat (c.natAbs / 100) ++ '.' :: pad2 (c.natAbs % 100)

/-! ### Spec-side acceptance predicates for the `to_cents` grammar (C6).
These two definitions follow the WORDS of the spec, not the code; they are
compared with `to_cents` in the C6 theorems. -/

/-- The fractional part of the normalised input: what follows the first
decimal point (empty when there is no point). -/
def fracPart (t : List Char) : List Char :=
  match t.dropWhile (fun c => c != '.') with
  | [] => []
  | _ :: r => r

/-- The whole part of the normalised input: what precedes the first decimal
point. -/
def wholePart (t : List Char) : List Char := t.takeWhile (fun c => c != '.')

/-- Strip one optional leading sign. -/
def dropSign (s : List Char) : List Char :=
  if s.head? == some '-' then s.tail else s

/-- The claim's acceptance condition, read literally from the spec: after
stripping the recognised symbols (leading currency symbol, thousands
separators, one optional sign, the decimal point), the input is accepted
exactly when it has at most one decimal point, at most 2 fractional digits,
and no non-digit remains. -/
def specAccepts (s : List Char) : Bool :=
  let t := dropDollar (removeCommas (pyStrip s))
  decide (countDot t ≤ 1) && decide ((fracPart t).length ≤ 2)
    && (dropSign (wholePart t) ++ fracPart t).all Char.isDigit

/-- The amended acceptance condition: as `specAccepts`, but a sign must be
followed by at least one digit in the whole part (the code rejects a whole
part that is exactly "-"). -/
def goodAmount (s : List Char) : Bool :=
  let t := dropDollar (removeCommas (pyStrip s))
  specAccepts s && (wholePart t != ['-'])

/-! ## The ledger store and the engine operations -/

/-- The typed failures of the engine; each is a `ValueError` message raised
by the Python code (`duplicateAccountName` is the UNIQUE(user_id, name)
IntegrityError of the accounts table). -/
inductive Err where
  | invalidAmount
  | invalidAccountType
  | duplicateAccountName
  | accountNotFound
  | sameAccountTransfer
  | insufficientFunds
deriving DecidableEq

deriving instance DecidableEq for Except

/-- A row of the `accounts` table. -/
structure Account where
  id : Nat
  user_id : Nat
  name : String
  type : String
  balance_cents : Int
deriving DecidableEq

/-- A row of the `transactions` table (`id` is the AUTOINCREMENT primary
key; `created_at` is not modelled, ordering is by `id`). -/
structure Txn where
  id : Nat
  account_id : Nat
  kind : String
  amount_cents : Int
  balance_after_cents : Int
  note : String
deriving DecidableEq

/-- The persistent store: both tables in insertion order, plus the next
AUTOINCREMENT ids. -/
structure DB where
  accounts : List Account
  txns : List Txn
  nextAccountId : Nat
  nextTxId : Nat
deriving DecidableEq

/-- A freshly initialised store. -/
def initDB : DB := ⟨[], [], 0, 0⟩

/-- `get_account(user_id, name)`: first row with this owner and name. -/
def get_account (db : DB) (uid : Nat) (name : String) : Option Account :=
  db.accounts.find? (fun a => a.user_id == uid && a.name == name)

/-- `UPDATE accounts SET balance_cents=? WHERE id=?`. -/
def setBalance (i : Nat) (v : Int) (l : List Account) : List Account :=
  l.map (fun b => if b.id == i then { b with balance_cents := v } else b)

/-- `create_account(user_id, name, type_)`: reject a bad type, honour the
UNIQUE(user_id, name) constraint, insert with balance 0. -/
def create_account (db : DB) (uid : Nat) (name ty : String) :
    Except Err (DB × Account) :=
  if !(ty == "checking" || ty == "savings") then .error .invalidAccountType
  else if db.accounts.any (fun a => a.user_id == uid && a.name == name) then
    .error .duplicateAccountName
  else
    let acc : Account := ⟨db.nextAccountId, uid, name, ty, 0⟩
    .ok ({ db with
            accounts := db.accounts ++ [acc],
            nextAccountId := db.nextAccountId + 1 }, acc)

/-- `add_tx(conn, account_id, kind, amount_cents, note)`: the single balance
mutation primitive — read the balance by account id, fail when the new
balance would be negative, otherwise write the balance and append the
transaction row. -/
def add_tx (db : DB) (account_id : Nat) (kind : String) (amount_cents : Int)
    (note : String) : Except Err DB :=
  match db.accounts.find? (fun a => a.id == account_id) with
  | none => .error .accountNotFound
  | some a =>
    let newBal := a.balance_cents + amount_cents
    if newBal < 0 then .error .insufficientFunds
    else .ok { db with
      accounts := setBalance account_id newBal db.accounts,
      txns := db.txns ++ [⟨db.nextTxId, account_id, kind, amount_cents, newBal, note⟩],
      nextTxId := db.nextTxId + 1 }

/-- `deposit(user_id, account_name, amount_cents, note)`. The Python
function has no `return` statement, so its value is `None`: modelled as
`none : Option Int` in the result pair. -/
def deposit (db : DB) (uid : Nat) (name : String) (amount : Int) (note : String) :
    Except Err (DB × Option Int) :=
  if amount ≤ 0 then .error .invalidAmount
  else
    match get_account db uid name with
    | none => .error .accountNotFound
    | some acc => (add_tx db acc.id ("deposit") amount note).map (fun db' => (db', none))

/-- `withdraw(user_id, account_name, amount_cents, note)`; returns `None`
(no `return` statement in the Python function). -/
def withdraw (db : DB) (uid : Nat) (name : String) (amount : Int) (note : String) :
    Except Err (DB × Option Int) :=
  if amount ≤ 0 then .error .invalidAmount
  else
    match get_account db uid name with
    | none => .error .accountNotFound
    | some acc => (add_tx db acc.id ("withdraw") (-amount) note).map (fun db' => (db', none))

/-- `transfer(user_id, from_acc, to_acc, amount_cents, note)`: both legs run
inside one `BEGIN IMMEDIATE` transaction, so an error in either leg commits
nothing (here: the `Except` bind returns no new state); returns `None`. -/
def transfer (db : DB) (uid : Nat) (fromName toName : String) (amount : Int)
    (note : String) : Except Err (DB × Option (Int × Int)) :=
  if amount ≤ 0 then .error .invalidAmount
  else
    match get_account db uid fromName, get_account db uid toName with
    | some src, some dst =>
      if src.id == dst.id then .error .sameAccountTransfer
      else
        match add_tx db src.id ("transfer_out") (-amount) note with
        | .error e => .error e
        | .ok db1 =>
          match add_tx db1 dst.id ("transfer_in") amount note with
          | .error e => .error e
          | .ok db2 => .ok (db2, none)
    | _, _ => .error .accountNotFound

/-- ORDER BY id DESC: `a` comes no later than `b` when its id is no smaller. -/
def txLater (a b : Txn) : Prop := b.id ≤ a.id

instance : DecidableRel txLater := fun a b => Nat.decLe b.id a.id

instance : IsTotal Txn txLater := ⟨fun a b => Nat.le_total b.id a.id⟩

instance : IsTrans Txn txLater := ⟨fun _ _ _ hab hbc => le_trans hbc hab⟩

/-- `get_history(user_id, account_name, limit)`: the account's transaction
rows, ORDER BY id DESC, LIMIT `limit` (SQLite: a negative LIMIT means no
bound). -/
def get_history (db : DB) (uid : Nat) (name : String) (limit : Int) :
    Except Err (List Txn) :=
  match get_account db uid name with
  | none => .error .accountNotFound
  | some acc =>
    let rows := List.insertionSort txLater
      (db.txns.filter (fun t => t.account_id == acc.id))
    .ok (if limit < 0 then rows else rows.take limit.toNat)

/-- `Session.do_history`'s limit handling: `max(1, min(200, int(limit_str)))`
(with `"20"` as the default input). -/
def clampLimit (n : Int) : Int := max 1 (min 200 n)

/-- One call into the engine. -/
inductive Op where
  | createAccount (uid : Nat) (name ty : String)
  | deposit (uid : Nat) (name : String) (amount : Int) (note : String)
  | withdraw (uid : Nat) (name : String) (amount : Int) (note : String)
  | transfer (uid : Nat) (fromName toName : String) (amount : Int) (note : String)
  | getHistory (uid : Nat) (name : String) (limit : Int)
deriving DecidableEq

/-- The state transition of one call (`.error` = the Python call raised, and
its SQLite transaction was rolled back). -/
def step (db : DB) : Op → Except Err DB
  | .createAccount uid name ty => (create_account db uid name ty).map Prod.fst
  | .deposit uid name amount note => (deposit db uid name amount note).map Prod.fst
  | .withdraw uid name amount note => (withdraw db uid name amount note).map Prod.fst
  | .transfer uid f t amount note => (transfer db uid f t amount note).map Prod.fst
  | .getHistory uid name limit => (get_history db uid name limit).map (fun _ => db)

/-- The state after one call: a failed call leaves the store unchanged. -/
def runOp (db : DB) (op : Op) : DB :=
  match step db op with
  | .ok db' => db'
  | .error _ => db

/-- The state after a sequence of calls. -/
def run (db : DB) (ops : List Op) : DB := ops.foldl runOp db

/-! ### Invariants -/

/-- Every account balance is non-negative. -/
@[reducible] def NonNeg (db : DB) : Prop := ∀ a ∈ db.accounts, 0 ≤ a.balance_cents

/-- Account ids are pairwise distinct (PRIMARY KEY). -/
@[reducible] def UniqueIds (db : DB) : Prop := (db.accounts.map Account.id).Nodup

/-- The sum of the signed amounts of all transactions of account `i`. -/
def txnSum (db : DB) (i : Nat) : Int :=
  ((db.txns.filter (fun t => t.account_id == i)).map Txn.amount_cents).sum

/-- Every account's balance equals the sum of its transactions' amounts. -/
@[reducible] def Consistent (db : DB) : Prop :=
  ∀ a ∈ db.accounts, a.balance_cents = txnSum db a.id

/-- All stored ids are below the AUTOINCREMENT counters. -/
@[reducible] def Bounded (db : DB) : Prop :=
  (∀ a ∈ db.accounts, a.id < db.nextAccountId) ∧
    (∀ t ∈ db.txns, t.account_id < db.nextAccountId) ∧
    (∀ t ∈ db.txns, t.id < db.nextTxId)

/-- The well-formedness invariant of reachable stores. -/
@[reducible] def WellFormed (db : DB) : Prop :=
  Bounded db ∧ UniqueIds db ∧ Consistent db

/-- Transaction ids strictly increase in insertion order (AUTOINCREMENT):
the list order of `txns` is the chronological order. Holds of every
reachable store (`txns_sorted_run`). -/
@[reducible] def TxnsSortedAsc (db : DB) : Prop :=
  db.txns.Pairwise (fun a b => a.id < b.id)

/-! ### Concrete stores for the witnesses -/

/-- Two accounts of user 1: "A" (checking, 100 cents) and "B" (savings, 5). -/
def dbAB : DB :=
  ⟨[⟨0, 1, "A", "checking", 100⟩, ⟨1, 1, "B", "savings", 5⟩], [], 2, 0⟩

/-- One account "Checking" of user 1 with balance 100. -/
def dbW : DB := ⟨[⟨0, 1, "Checking", "checking", 100⟩], [], 1, 0⟩

/-- `dbW` after `withdraw(1, "Checking", 40)`. -/
def dbWres : DB :=
  ⟨[⟨0, 1, "Checking", "checking", 60⟩], [⟨0, 0, "withdraw", -40, 60, ""⟩], 1, 1⟩

/-- A store with three transactions on account 0 of user 1. -/
def dbH : DB :=
  ⟨[⟨0, 1, "Checking", "checking", 150⟩],
   [⟨0, 0, "deposit", 100, 100, ""⟩, ⟨1, 0, "deposit", 100, 200, ""⟩,
    ⟨2, 0, "withdraw", -50, 150, ""⟩], 1, 3⟩

end YounisBank

namespace YounisBank

/-! ## MoneyCodec lemmas -/

theorem isSome_ite_some (b : Bool) (x : Int) :
    (if b then some x else none).isSome = b := by
  cases b <;> simp

theorem dropSign_cons (c : Char) (r : List Char) :
    dropSign (c :: r) = if c = '-' then r else c :: r := by
  by_cases h : c = '-' <;> simp [dropSign, h]

theorem finishParse_isSome (w f : List Char) :
    (finishParse w f).isSome
      = ((dropSign w).all Char.isDigit && (w != ['-']) && pyIsDigit f) := by
  cases w with
  | nil =>
    simp [finishParse, pyIsDigit, dropSign]
    split <;> simp_all [List.isEmpty_iff]
  | cons c r =>
    by_cases hc : c = '-'
    · subst hc
      have h1 : pyIsDigit ('-' :: r) = false := by
        simp [pyIsDigit]
      have hne : (('-' :: r) != ['-']) = !r.isEmpty := by
        cases r <;> simp
      simp only [finishParse, List.isEmpty_cons, if_neg Bool.false_ne_true,
        List.head?, h1]
      rw [isSome_ite_some, dropSign_cons, if_pos rfl, hne]
      simp [pyIsDigit, List.isEmpty_iff]
      cases r.all Char.isDigit <;> cases r.isEmpty <;> simp
    · have hb : ((c :: r).head? == some '-') = false := by
        simp [List.head?, hc]
      simp only [finishParse, List.isEmpty_cons, if_neg Bool.false_ne_true, hb]
      rw [isSome_ite_some, dropSign_cons, if_neg hc]
      have hne : ((c :: r) != ['-']) = true := by
        simp [hc]
      rw [hne]
      simp [pyIsDigit]

theorem pyIsDigit_pad (f : List Char) (h : f.length ≤ 2) :
    pyIsDigit ((f ++ ['0', '0']).take 2) = f.all Char.isDigit := by
  match f with
  | [] => decide
  | [a] => simp [pyIsDigit]
  | [a, b] => simp [pyIsDigit]
  | a :: b :: c :: r => simp at h

theorem fracPart_of_nil (t : List Char) (hd : t.dropWhile (fun c => c != '.') = []) :
    fracPart t = [] := by
  unfold fracPart; rw [hd]

theorem fracPart_of_cons (t : List Char) (c : Char) (fr : List Char)
    (hd : t.dropWhile (fun c => c != '.') = c :: fr) : fracPart t = fr := by
  unfold fracPart; rw [hd]

theorem to_cents_core_of_nil (t : List Char) (h1 : ¬ 1 < countDot t)
    (hd : t.dropWhile (fun c => c != '.') = []) :
    to_cents_core t = finishParse t ['0', '0'] := by
  unfold to_cents_core; rw [if_neg h1, hd]

theorem to_cents_core_of_cons (t : List Char) (c : Char) (fr : List Char)
    (h1 : ¬ 1 < countDot t) (hd : t.dropWhile (fun c => c != '.') = c :: fr) :
    to_cents_core t =
      if 2 < fr.length then none
      else finishParse (t.takeWhile (fun c => c != '.')) ((fr ++ ['0', '0']).take 2) := by
  unfold to_cents_core; rw [if_neg h1, hd]

theorem to_cents_core_isSome (t : List Char) :
    (to_cents_core t).isSome
      = (decide (countDot t ≤ 1) && decide ((fracPart t).length ≤ 2)
          && (dropSign (wholePart t) ++ fracPart t).all Char.isDigit
          && (wholePart t != ['-'])) := by
  by_cases h1 : 1 < countDot t
  · have h1' : ¬ countDot t ≤ 1 := by omega
    simp [to_cents_core, h1, h1']
  · have h1' : countDot t ≤ 1 := by omega
    cases hd : t.dropWhile (fun c => c != '.') with
    | nil =>
      have ht : t.takeWhile (fun c => c != '.') = t := by
        have h2 := List.takeWhile_append_dropWhile (p := fun c => c != '.') (l := t)
        rw [hd] at h2; simpa using h2
      rw [to_cents_core_of_nil t h1 hd, finishParse_isSome,
        fracPart_of_nil t hd, wholePart, ht]
      have hf : pyIsDigit ['0', '0'] = true := by decide
      simp only [hf, h1', decide_eq_true_eq, List.append_nil, decide_True,
        Bool.true_and, Bool.and_true]
      simp [h1']
    | cons c fr =>
      rw [to_cents_core_of_cons t c fr h1 hd, fracPart_of_cons t c fr hd, wholePart]
      by_cases h2 : 2 < fr.length
      · have h2' : ¬ fr.length ≤ 2 := by omega
        simp [h2, h2']
      · have h2' : fr.length ≤ 2 := by omega
        rw [if_neg h2, finishParse_isSome, pyIsDigit_pad fr h2']
        simp [h1', h2']
        cases (dropSign (t.takeWhile fun c => c != '.')).all Char.isDigit <;>
          cases fr.all Char.isDigit <;>
          cases ((t.takeWhile fun c => c != '.') != ['-']) <;> simp

theorem to_cents_isSome (s : List Char) : (to_cents s).isSome = goodAmount s := by
  have h := to_cents_core_isSome (dropDollar (removeCommas (pyStrip s)))
  unfold goodAmount specAccepts
  exact h

/-! ### Character-class helpers -/

theorem isDigit_not_isWhitespace {c : Char} (h : c.isDigit = true) :
    c.isWhitespace = false := by
  cases hw : c.isWhitespace
  · rfl
  · exfalso
    simp [Char.isWhitespace] at hw
    rcases hw with ((h1 | h1) | h1) | h1 <;> subst h1 <;> simp at h

theorem isDigit_ne {c d : Char} (h : c.isDigit = true) (hd : d.isDigit = false) :
    c ≠ d := by
  intro he; subst he; simp [h] at hd

/-! ### Normalisation no-op lemmas -/

theorem dropWhile_eq_self {p : Char → Bool} {l : List Char}
    (h : ∀ c ∈ l, p c = false) : l.dropWhile p = l := by
  cases l with
  | nil => rfl
  | cons a t => rw [List.dropWhile_cons, h a (List.mem_cons_self a t)]; simp

theorem pyStrip_eq_self {l : List Char} (h : ∀ c ∈ l, c.isWhitespace = false) :
    pyStrip l = l := by
  unfold pyStrip
  rw [dropWhile_eq_self h,
    dropWhile_eq_self (fun c hc => h c (List.mem_reverse.mp hc)),
    List.reverse_reverse]

theorem removeCommas_eq_self {l : List Char} (h : ∀ c ∈ l, (c != ',') = true) :
    removeCommas l = l := List.filter_eq_self.mpr h

theorem dropDollar_eq_self {l : List Char} (h : (l.head? == some '$') = false) :
    dropDollar l = l := by unfold dropDollar; rw [h]; simp

theorem head_beq_of_ne {c d : Char} (h : c ≠ d) (l : List Char) :
    ((c :: l).head? == some d) = false := by
  rw [List.head?_cons]
  exact beq_eq_false_iff_ne.mpr (by simp [h])

/-! ### Counting and splitting at the decimal point -/

theorem countDot_append (a b : List Char) :
    countDot (a ++ b) = countDot a + countDot b := by
  simp [countDot, List.filter_append]

theorem countDot_nodot {l : List Char} (h : ∀ c ∈ l, (c == '.') = false) :
    countDot l = 0 := by
  unfold countDot
  rw [List.filter_eq_nil_iff.mpr (fun c hc => by simp [h c hc])]
  rfl

theorem countDot_dotcons (l : List Char) : countDot ('.' :: l) = 1 + countDot l := by
  simp [countDot, List.filter_cons]
  omega

theorem takeWhile_append_dot (A B : List Char) (h : ∀ c ∈ A, (c != '.') = true) :
    (A ++ '.' :: B).takeWhile (fun c => c != '.') = A := by
  induction A with
  | nil => simp [List.takeWhile_cons]
  | cons a t ih =>
    rw [List.cons_append, List.takeWhile_cons, h a (List.mem_cons_self a t)]
    simp [ih (fun c hc => h c (List.mem_cons_of_mem a hc))]

theorem dropWhile_append_dot (A B : List Char) (h : ∀ c ∈ A, (c != '.') = true) :
    (A ++ '.' :: B).dropWhile (fun c => c != '.') = '.' :: B := by
  induction A with
  | nil => simp [List.dropWhile_cons]
  | cons a t ih =>
    rw [List.cons_append, List.dropWhile_cons, h a (List.mem_cons_self a t)]
    simp [ih (fun c hc => h c (List.mem_cons_of_mem a hc))]

/-! ### Decimal rendering is the inverse of decimal parsing -/

theorem digitVal_digitChar {n : Nat} (h : n < 10) :
    digitVal (Nat.digitChar n) = n := by
  interval_cases n <;> rfl

theorem digitChar_isDigit {n : Nat} (h : n < 10) :
    (Nat.digitChar n).isDigit = true := by
  interval_cases n <;> decide

theorem natOfChars_go (l : List Char) : ∀ a : Nat,
    l.foldl (fun n c => 10 * n + digitVal c) a = a * 10 ^ l.length + natOfChars l := by
  induction l with
  | nil => intro a; simp [natOfChars]
  | cons c t ih =>
    intro a
    rw [List.foldl_cons, ih (10 * a + digitVal c)]
    have h2 : natOfChars (c :: t) = digitVal c * 10 ^ t.length + natOfChars t := by
      show t.foldl _ (10 * 0 + digitVal c) = _
      rw [ih (10 * 0 + digitVal c)]
      ring
    rw [h2, List.length_cons]
    ring

theorem natOfChars_append (A B : List Char) :
    natOfChars (A ++ B) = natOfChars A * 10 ^ B.length + natOfChars B := by
  unfold natOfChars
  rw [List.foldl_append]
  exact natOfChars_go B _

theorem natOfChars_singleton (d : Char) : natOfChars [d] = digitVal d := by
  simp [natOfChars]

theorem natOfChars_cons (c : Char) (t : List Char) :
    natOfChars (c :: t) = digitVal c * 10 ^ t.length + natOfChars t := by
  have h := natOfChars_append [c] t
  simpa [natOfChars_singleton] using h

theorem renderNatAux_spec : ∀ fuel n : Nat, n < fuel →
    natOfChars (renderNatAux fuel n) = n ∧ renderNatAux fuel n ≠ [] ∧
      ∀ c ∈ renderNatAux fuel n, c.isDigit = true := by
  intro fuel
  induction fuel with
  | zero => intro n h; omega
  | succ fuel ih =>
    intro n h
    by_cases h10 : n < 10
    · rw [renderNatAux, if_pos h10]
      exact ⟨by rw [natOfChars_singleton, digitVal_digitChar h10], by simp,
        fun c hc => by rcases List.mem_singleton.mp hc with rfl; exact digitChar_isDigit h10⟩
    · rw [renderNatAux, if_neg h10]
      have hlt : n / 10 < fuel := by omega
      obtain ⟨hv, hne, hdig⟩ := ih (n / 10) hlt
      refine ⟨?_, by simp, ?_⟩
      · rw [natOfChars_append, hv, natOfChars_singleton, digitVal_digitChar (by omega)]
        simp
        omega
      · intro c hc
        rcases List.mem_append.mp hc with hc | hc
        · exact hdig c hc
        · rcases List.mem_singleton.mp hc with rfl
          exact digitChar_isDigit (by omega)

theorem renderNat_spec (n : Nat) :
    natOfChars (renderNat n) = n ∧ renderNat n ≠ [] ∧
      ∀ c ∈ renderNat n, c.isDigit = true :=
  renderNatAux_spec (n + 1) n (Nat.lt_succ_self n)

theorem renderNatAux_single {fuel n : Nat} (h : n < 10) (hf : 0 < fuel) :
    renderNatAux fuel n = [Nat.digitChar n] := by
  cases fuel with
  | zero => omega
  | succ fuel => rw [renderNatAux, if_pos h]

theorem pad2_spec (r : Nat) (h : r < 100) :
    (pad2 r).length = 2 ∧ natOfChars (pad2 r) = r ∧ ∀ c ∈ pad2 r, c.isDigit = true := by
  by_cases h10 : r < 10
  · rw [pad2, if_pos h10, renderNat, renderNatAux_single h10 (by omega)]
    refine ⟨rfl, ?_, ?_⟩
    · rw [natOfChars_cons, natOfChars_singleton, digitVal_digitChar h10]
      simp [digitVal]
    · intro c hc
      rcases List.mem_cons.mp hc with rfl | hc
      · decide
      · rcases List.mem_singleton.mp hc with rfl
        exact digitChar_isDigit h10
  · have hr : renderNat r = [Nat.digitChar (r / 10), Nat.digitChar (r % 10)] := by
      rw [renderNat, renderNatAux, if_neg h10,
        renderNatAux_single (n := r / 10) (by omega) (by omega)]
      rfl
    rw [pad2, if_neg h10, hr]
    refine ⟨rfl, ?_, ?_⟩
    · rw [natOfChars_cons, natOfChars_singleton, digitVal_digitChar (by omega),
        digitVal_digitChar (by omega)]
      simp
      omega
    · intro c hc
      rcases List.mem_cons.mp hc with rfl | hc
      · exact digitChar_isDigit (by omega)
      · rcases List.mem_singleton.mp hc with rfl
        exact digitChar_isDigit (by omega)

theorem finishParse_neg (W F : List Char) (hW : pyIsDigit W = true)
    (hdrop : W.dropWhile (fun c => c == '-') = W) (hF : pyIsDigit F = true) :
    finishParse ('-' :: W) F =
      some (-1 * ((natOfChars W : Int) * 100 + (natOfChars F : Int))) := by
  unfold finishParse
  have e3 : ('-' :: W).dropWhile (fun c => c == '-') = W := by
    rw [List.dropWhile_cons]
    simpa using hdrop
  simp [hW, hF, e3]

theorem finishParse_pos (W F : List Char) (c : Char) (cs : List Char)
    (hWc : W = c :: cs) (hcne : c ≠ '-') (hW : pyIsDigit W = true)
    (hdrop : W.dropWhile (fun c => c == '-') = W) (hF : pyIsDigit F = true) :
    finishParse W F =
      some ((natOfChars W : Int) * 100 + (natOfChars F : Int)) := by
  unfold finishParse
  have e0 : W.isEmpty = false := by rw [hWc]; simp
  have e1 : (W.head? == some '-') = false := by
    rw [hWc, List.head?_cons]
    exact beq_eq_false_iff_ne.mpr (by simp [hcne])
  simp [e0, e1, hW, hF, hdrop]

/-- C5: round-trip — for every integer x (positive, zero, or negative),
`to_cents (from_cents x) = some x`: parsing the rendering of any amount in
minor units gives back exactly that amount. -/
theorem to_from_cents_roundtrip : ∀ x : Int, to_cents (from_cents x) = some x := by
  intro x
  obtain ⟨wv, wne, wdig⟩ := renderNat_spec (x.natAbs / 100)
  have hr100 : x.natAbs % 100 < 100 := Nat.mod_lt _ (by norm_num)
  obtain ⟨flen, fv, fdig⟩ := pad2_spec (x.natAbs % 100) hr100
  set W := renderNat (x.natAbs / 100) with hWdef
  set F := pad2 (x.natAbs % 100) with hFdef
  set S : List Char := if x < 0 then ['-'] else [] with hSdef
  have hfc : from_cents x = (S ++ W) ++ '.' :: F := by
    rw [from_cents, List.append_assoc]
  -- every character of the prefix S ++ W is a non-'.' non-',' non-space char
  have hSW : ∀ c ∈ S ++ W, c.isDigit = true ∨ c = '-' := by
    intro c hc
    rcases List.mem_append.mp hc with hc | hc
    · right
      rw [hSdef] at hc
      split at hc <;> simp_all
    · exact Or.inl (wdig c hc)
  have hall : ∀ c ∈ from_cents x, c.isWhitespace = false ∧ (c != ',') = true := by
    intro c hc
    rw [hfc] at hc
    rcases List.mem_append.mp hc with hc | hc
    · rcases hSW c hc with hd | rfl
      · exact ⟨isDigit_not_isWhitespace hd, by
          simp [bne]
          exact isDigit_ne hd (by decide)⟩
      · exact ⟨by decide, by decide⟩
    · rcases List.mem_cons.mp hc with rfl | hc
      · exact ⟨by decide, by decide⟩
      · exact ⟨isDigit_not_isWhitespace (fdig c hc), by
          simp [bne]
          exact isDigit_ne (fdig c hc) (by decide)⟩
  have h1 : pyStrip (from_cents x) = from_cents x :=
    pyStrip_eq_self (fun c hc => (hall c hc).1)
  have h2 : removeCommas (from_cents x) = from_cents x :=
    removeCommas_eq_self (fun c hc => (hall c hc).2)
  have h3 : dropDollar (from_cents x) = from_cents x := by
    apply dropDollar_eq_self
    obtain ⟨c, cs, hWc⟩ := List.exists_cons_of_ne_nil wne
    have hcd : c.isDigit = true := wdig c (by rw [hWc]; exact List.mem_cons_self c cs)
    rw [hfc, hSdef]
    split
    · exact head_beq_of_ne (by decide) _
    · rw [List.nil_append, hWc, List.cons_append]
      exact head_beq_of_ne (isDigit_ne hcd (by decide)) _
  have hSWdot : ∀ c ∈ S ++ W, (c != '.') = true := by
    intro c hc
    rcases hSW c hc with hd | rfl
    · simp [bne]
      exact isDigit_ne hd (by decide)
    · decide
  have hcd1 : countDot (from_cents x) = 1 := by
    rw [hfc, countDot_append, countDot_dotcons,
      countDot_nodot (l := S ++ W) (fun c hc => by
        have h4 := hSWdot c hc
        simp [bne] at h4
        exact beq_eq_false_iff_ne.mpr h4),
      countDot_nodot (l := F) (fun c hc =>
        beq_eq_false_iff_ne.mpr (isDigit_ne (fdig c hc) (by decide)))]
  have hnd : ¬ 1 < countDot (from_cents x) := by omega
  have hdw : (from_cents x).dropWhile (fun c => c != '.') = '.' :: F := by
    rw [hfc]; exact dropWhile_append_dot _ _ hSWdot
  have htw : (from_cents x).takeWhile (fun c => c != '.') = S ++ W := by
    rw [hfc]; exact takeWhile_append_dot _ _ hSWdot
  obtain ⟨f1, f2, hF2⟩ := List.length_eq_two.mp flen
  have htake : (F ++ ['0', '0']).take 2 = F := by rw [hF2]; rfl
  rw [to_cents, h1, h2, h3, to_cents_core_of_cons _ '.' F hnd hdw, htw]
  have hflen : ¬ 2 < F.length := by omega
  rw [if_neg hflen, htake]
  -- now the final parse of `finishParse (S ++ W) F`
  have hpw : pyIsDigit W = true := by
    rw [pyIsDigit]
    simp [List.isEmpty_iff, wne]
    exact wdig
  have hpf : pyIsDigit F = true := by
    rw [pyIsDigit]
    simp [List.isEmpty_iff]
    exact ⟨by rw [hF2]; simp, fdig⟩
  have hdrop : W.dropWhile (fun c => c == '-') = W :=
    dropWhile_eq_self (fun c hc => beq_eq_false_iff_ne.mpr (isDigit_ne (wdig c hc) (by decide)))
  obtain ⟨c, cs, hWc⟩ := List.exists_cons_of_ne_nil wne
  have hcd : c.isDigit = true := wdig c (by rw [hWc]; exact List.mem_cons_self c cs)
  have hnum : 100 * (x.natAbs / 100) + x.natAbs % 100 = x.natAbs := Nat.div_add_mod _ _
  by_cases hx : x < 0
  · have hS : S = ['-'] := by rw [hSdef, if_pos hx]
    rw [hS, List.singleton_append, finishParse_neg W F hpw hdrop hpf, wv, fv]
    refine congrArg some ?_
    omega
  · have hS : S = [] := by rw [hSdef, if_neg hx]
    rw [hS, List.nil_append,
      finishParse_pos W F c cs hWc (isDigit_ne hcd (by decide)) hpw hdrop hpf, wv, fv]
    refine congrArg some ?_
    omega

/-- C6 (amended): `to_cents` accepts an optional leading currency symbol,
commas (stripped), an optional leading minus sign, and an optional
fractional part of 0-2 digits right-padded to 2 ("5" parses to 500, "5.1"
to 510, "$1,234.5" to 123450); it fails exactly when the input has more
than one decimal point, more than 2 fractional digits, any non-digit
remaining after stripping the recognised symbols, or — the amendment — a
whole part consisting of a bare sign with no digit (`goodAmount` states
this acceptance condition). -/
theorem to_cents_grammar :
    (∀ s : List Char, (to_cents s).isSome = goodAmount s) ∧
    to_cents (("5").toList) = some 500 ∧
    to_cents (("5.1").toList) = some 510 ∧
    to_cents (("$1,234.5").toList) = some 123450 :=
  ⟨to_cents_isSome, by decide, by decide, by decide⟩

/-- C6 counterexample: on the input "-" the spec's literal failure
condition does not hold (after stripping the optional sign no non-digit
remains, there is no decimal point and no fractional digit, so the claim
says the parse succeeds), yet `to_cents` fails. -/
theorem to_cents_bare_sign_cx :
    specAccepts (("-").toList) = true ∧ to_cents (("-").toList) = none := by
  constructor <;> decide

/-- C10: `to_cents` removes every comma, wherever it occurs, before any
validation: "1,2,3" parses to 12300 and ",,5" parses to 500; in general,
for any input without surrounding whitespace, deleting all commas first
does not change the result. -/
theorem to_cents_comma_stripping :
    to_cents (("1,2,3").toList) = some 12300 ∧
    to_cents ((",,5").toList) = some 500 ∧
    (∀ s : List Char, (∀ c ∈ s, c.isWhitespace = false) →
      to_cents (s.filter (fun c => c != ',')) = to_cents s) := by
  refine ⟨by decide, by decide, fun s h => ?_⟩
  unfold to_cents
  have h1 : pyStrip s = s := pyStrip_eq_self h
  have h2 : pyStrip (s.filter (fun c => c != ',')) = s.filter (fun c => c != ',') :=
    pyStrip_eq_self (fun c hc => h c (List.mem_of_mem_filter hc))
  rw [h1, h2]
  unfold removeCommas
  rw [List.filter_filter]
  simp
/-! ## Ledger lemmas -/

theorem get_account_spec {db : DB} {uid : Nat} {name : String} {a : Account}
    (h : get_account db uid name = some a) :
    a ∈ db.accounts ∧ a.user_id = uid ∧ a.name = name := by
  have h1 := List.mem_of_find?_eq_some h
  have h2 := List.find?_some h
  simp at h2
  exact ⟨h1, h2.1, h2.2⟩

theorem find?_id_of_unique {l : List Account} {a : Account}
    (hu : (l.map Account.id).Nodup) (ha : a ∈ l) :
    l.find? (fun b => b.id == a.id) = some a := by
  induction l with
  | nil => cases ha
  | cons b t ih =>
    rw [List.map_cons, List.nodup_cons] at hu
    rcases List.mem_cons.mp ha with rfl | ha
    · rw [List.find?_cons_of_pos _ (by simp)]
    · have hb : (b.id == a.id) = false := by
        refine beq_eq_false_iff_ne.mpr (fun he => ?_)
        exact hu.1 (he ▸ List.mem_map_of_mem Account.id ha)
      rw [List.find?_cons_of_neg _ (by simp [hb])]
      exact ih hu.2 ha

theorem setBalance_map_id (i : Nat) (v : Int) (l : List Account) :
    (setBalance i v l).map Account.id = l.map Account.id := by
  unfold setBalance
  rw [List.map_map]
  apply List.map_congr_left
  intro b _
  by_cases h : b.id = i <;> simp [h]

theorem find?_cons_pos {α : Type} (p : α → Bool) (a : α) (l : List α)
    (h : p a = true) : (a :: l).find? p = some a := by
  simp [List.find?_cons, h]

theorem find?_cons_neg {α : Type} (p : α → Bool) (a : α) (l : List α)
    (h : p a = false) : (a :: l).find? p = l.find? p := by
  simp [List.find?_cons, h]

theorem find?_setBalance (i j : Nat) (v : Int) (l : List Account) :
    (setBalance i v l).find? (fun b => b.id == j)
      = (l.find? (fun b => b.id == j)).map
          (fun b => if b.id == i then { b with balance_cents := v } else b) := by
  induction l with
  | nil => rfl
  | cons a t ih =>
    have hfid : ∀ b : Account,
        ((if b.id == i then { b with balance_cents := v } else b).id == j)
          = (b.id == j) := by
      intro b
      by_cases h : b.id = i <;> simp [h]
    show ((if a.id == i then { a with balance_cents := v } else a)
          :: setBalance i v t).find? (fun b => b.id == j) = _
    cases hb : (a.id == j) with
    | true =>
      rw [find?_cons_pos (fun b => b.id == j)
            (if a.id == i then { a with balance_cents := v } else a)
            (setBalance i v t)
            (by show ((if a.id == i then { a with balance_cents := v } else a).id
                  == j) = true
                rw [hfid a]; exact hb),
          find?_cons_pos (fun b => b.id == j) a t hb]
      rfl
    | false =>
      rw [find?_cons_neg (fun b => b.id == j)
            (if a.id == i then { a with balance_cents := v } else a)
            (setBalance i v t)
            (by show ((if a.id == i then { a with balance_cents := v } else a).id
                  == j) = false
                rw [hfid a]; exact hb),
          find?_cons_neg (fun b => b.id == j) a t hb]
      exact ih

theorem add_tx_of_found {db : DB} {i : Nat} {a : Account}
    (h : db.accounts.find? (fun b => b.id == i) = some a) (k : String)
    (amt : Int) (note : String) :
    add_tx db i k amt note =
      if a.balance_cents + amt < 0 then .error .insufficientFunds
      else .ok { db with
        accounts := setBalance i (a.balance_cents + amt) db.accounts,
        txns := db.txns ++ [⟨db.nextTxId, i, k, amt, a.balance_cents + amt, note⟩],
        nextTxId := db.nextTxId + 1 } := by
  unfold add_tx
  rw [h]

theorem add_tx_of_none {db : DB} {i : Nat}
    (h : db.accounts.find? (fun b => b.id == i) = none) (k : String)
    (amt : Int) (note : String) :
    add_tx db i k amt note = .error .accountNotFound := by
  unfold add_tx
  rw [h]

theorem add_tx_ne_same (db : DB) (i : Nat) (k : String) (amt : Int) (note : String) :
    add_tx db i k amt note ≠ .error .sameAccountTransfer := by
  unfold add_tx
  cases h : db.accounts.find? (fun b => b.id == i) with
  | none => simp
  | some a =>
    dsimp only
    split <;> simp

theorem account_id_inj {l : List Account} {a b : Account}
    (hu : (l.map Account.id).Nodup) (ha : a ∈ l) (hb : b ∈ l)
    (h : a.id = b.id) : a = b := by
  have h1 := find?_id_of_unique hu ha
  have h2 := find?_id_of_unique hu hb
  rw [← h] at h2
  rw [h1] at h2
  exact Option.some.inj h2

/-- C4 (amended): for every user, existing account and amount > 0,
`withdraw` fails with InsufficientFunds exactly when the balance is below
the amount; on that failure the store is unchanged; otherwise it appends
exactly one `withdraw` ledger entry of signed amount −amount and updates
the balance (the Python function returns `None`, not the new balance). -/
theorem withdraw_spec (db : DB) (uid : Nat) (name : String) (amount : Int)
    (note : String) (acc : Account)
    (hu : UniqueIds db) (hacc : get_account db uid name = some acc)
    (hamt : 0 < amount) :
    (withdraw db uid name amount note = .error .insufficientFunds
        ↔ acc.balance_cents < amount) ∧
    (acc.balance_cents < amount → runOp db (.withdraw uid name amount note) = db) ∧
    (amount ≤ acc.balance_cents →
      withdraw db uid name amount note = .ok ({ db with
        accounts := setBalance acc.id (acc.balance_cents - amount) db.accounts,
        txns := db.txns ++
          [⟨db.nextTxId, acc.id, ("withdraw"), -amount, acc.balance_cents - amount, note⟩],
        nextTxId := db.nextTxId + 1 }, none)) := by
  have hmem := (get_account_spec hacc).1
  have hfind : db.accounts.find? (fun b => b.id == acc.id) = some acc :=
    find?_id_of_unique hu hmem
  have hne0 : ¬ amount ≤ 0 := by omega
  have hw : withdraw db uid name amount note
      = (add_tx db acc.id ("withdraw") (-amount) note).map (fun db' => (db', none)) := by
    unfold withdraw
    rw [if_neg hne0, hacc]
  rw [add_tx_of_found hfind ("withdraw") (-amount) note] at hw
  by_cases hlt : acc.balance_cents < amount
  · have hc : acc.balance_cents + -amount < 0 := by omega
    rw [if_pos hc] at hw
    have hw2 : withdraw db uid name amount note = .error .insufficientFunds := by
      rw [hw]; rfl
    refine ⟨⟨fun _ => hlt, fun _ => hw2⟩, fun _ => ?_, fun hge => absurd hlt (by omega)⟩
    simp [runOp, step, hw2, Except.map]
  · have hc : ¬ (acc.balance_cents + -amount < 0) := by omega
    rw [if_neg hc] at hw
    have hsub : acc.balance_cents + -amount = acc.balance_cents - amount := by ring
    rw [hsub] at hw
    have hw2 : withdraw db uid name amount note = .ok ({ db with
        accounts := setBalance acc.id (acc.balance_cents - amount) db.accounts,
        txns := db.txns ++
          [⟨db.nextTxId, acc.id, ("withdraw"), -amount, acc.balance_cents - amount, note⟩],
        nextTxId := db.nextTxId + 1 }, none) := by
      rw [hw]; rfl
    refine ⟨⟨fun he => ?_, fun h => absurd h hlt⟩, fun h => absurd h hlt, fun _ => hw2⟩
    rw [hw2] at he
    cases he

/-- C4 witness: on a store with one account "Checking" of balance 100, a
withdrawal of 200 fails with InsufficientFunds and leaves the store
unchanged. -/
theorem withdraw_spec_witness :
    withdraw dbW 1 ("Checking") 200 ("") = .error .insufficientFunds ∧
    runOp dbW (.withdraw 1 ("Checking") 200 ("")) = dbW := by
  have h := withdraw_spec dbW 1 ("Checking") 200 ("")
    ⟨0, 1, "Checking", "checking", 100⟩ (by decide) (by decide) (by decide)
  exact ⟨h.1.mpr (by decide), h.2.1 (by decide)⟩

/-- C4 counterexample: a successful withdrawal of 40 from balance 100
leaves the new balance 60 in the store, but the value the Python function
returns is `None` — not the new balance, refuting the claim's "returns the
new balance". -/
theorem withdraw_returns_none_cx :
    withdraw dbW 1 ("Checking") 40 ("") = .ok (dbWres, (none : Option Int)) ∧
    (dbWres.accounts.map Account.balance_cents = [60]) ∧
    (((none : Option Int)) == some 60) = false := by
  refine ⟨by decide, by decide, by decide⟩

/-- C8: with amount > 0 and both accounts existing, `transfer` is rejected
with SameAccountTransfer exactly when the two names denote the same account
— equivalently (by uniqueness of (owner, name)) exactly when the names are
equal — and in that case the store is unchanged. -/
theorem transfer_same_account_iff (db : DB) (uid : Nat) (fromName toName : String)
    (amount : Int) (note : String) (src dst : Account)
    (hu : UniqueIds db) (hamt : 0 < amount)
    (hsrc : get_account db uid fromName = some src)
    (hdst : get_account db uid toName = some dst) :
    (transfer db uid fromName toName amount note = .error .sameAccountTransfer
        ↔ fromName = toName) ∧
    (fromName = toName → runOp db (.transfer uid fromName toName amount note) = db) := by
  have hne0 : ¬ amount ≤ 0 := by omega
  have htr : transfer db uid fromName toName amount note =
      (if src.id == dst.id then Except.error Err.sameAccountTransfer
       else match add_tx db src.id ("transfer_out") (-amount) note with
         | .error e => .error e
         | .ok db1 =>
           match add_tx db1 dst.id ("transfer_in") amount note with
           | .error e => .error e
           | .ok db2 => .ok (db2, none)) := by
    unfold transfer
    rw [if_neg hne0, hsrc, hdst]
  obtain ⟨hsmem, _, hsname⟩ := get_account_spec hsrc
  obtain ⟨hdmem, _, hdname⟩ := get_account_spec hdst
  cases hid : (src.id == dst.id) with
  | true =>
    simp only [hid, if_true] at htr
    have heq : fromName = toName := by
      have hsd : src = dst := account_id_inj hu hsmem hdmem (by simpa using hid)
      rw [← hsname, ← hdname, hsd]
    refine ⟨⟨fun _ => heq, fun _ => htr⟩, fun _ => ?_⟩
    simp [runOp, step, htr, Except.map]
  | false =>
    simp only [hid] at htr
    rw [if_neg (by simp : ¬ (false = true))] at htr
    have hne : transfer db uid fromName toName amount note
        ≠ .error .sameAccountTransfer := by
      rw [htr]
      cases h1 : add_tx db src.id ("transfer_out") (-amount) note with
      | error e =>
        intro hcon
        have he2 : e = Err.sameAccountTransfer := Except.error.inj hcon
        exact add_tx_ne_same db src.id ("transfer_out") (-amount) note
          (by rw [h1, he2])
      | ok db1 =>
        show (match add_tx db1 dst.id ("transfer_in") amount note with
              | Except.error e => Except.error e
              | Except.ok db2 => Except.ok (db2, none))
            ≠ Except.error Err.sameAccountTransfer
        cases h2 : add_tx db1 dst.id ("transfer_in") amount note with
        | error e =>
          intro hcon
          have he2 : e = Err.sameAccountTransfer := Except.error.inj hcon
          exact add_tx_ne_same db1 dst.id ("transfer_in") amount note
            (by rw [h2, he2])
        | ok db2 =>
          intro hcon
          exact Except.noConfusion hcon
    have hnames : fromName ≠ toName := by
      intro heq
      rw [heq, hdst] at hsrc
      have hsd : src = dst := (Option.some.inj hsrc).symm
      rw [hsd] at hid
      simp at hid
    exact ⟨⟨fun he => absurd he hne, fun he => absurd he hnames⟩,
      fun he => absurd he hnames⟩

/-- C8 witness: transferring from "A" to "A" is rejected with
SameAccountTransfer and the store is unchanged. -/
theorem transfer_same_account_iff_witness :
    transfer dbAB 1 ("A") ("A") 5 ("") = .error .sameAccountTransfer ∧
    runOp dbAB (.transfer 1 ("A") ("A") 5 ("")) = dbAB := by
  have h := transfer_same_account_iff dbAB 1 ("A") ("A") 5 ("")
    ⟨0, 1, "A", "checking", 100⟩ ⟨0, 1, "A", "checking", 100⟩
    (by decide) (by decide) (by decide) (by decide)
  exact ⟨h.1.mpr rfl, h.2 rfl⟩

theorem setBalance_setBalance (i j : Nat) (v w : Int) (l : List Account)
    (hij : j ≠ i) :
    setBalance j w (setBalance i v l)
      = l.map (fun b =>
          if b.id == i then { b with balance_cents := v }
          else if b.id == j then { b with balance_cents := w } else b) := by
  unfold setBalance
  rw [List.map_map]
  apply List.map_congr_left
  intro b _
  by_cases h1 : b.id = i
  · have h2 : i ≠ j := fun he => hij he.symm
    simp [h1, h2]
  · by_cases h2 : b.id = j <;> simp [h1, h2, hij]

/-- C9: assuming every balance is non-negative, the InsufficientFunds
branch of `add_tx` is unreachable for positive entries — a deposit of a
positive amount never fails with InsufficientFunds, and when a transfer
fails with InsufficientFunds the cause is always the debit leg (the source
balance is below the amount); the credit leg never raises it. -/
theorem no_spurious_insufficient_funds (db : DB) (uid : Nat)
    (name fromName toName : String) (amount : Int) (note : String) (src : Account)
    (hnn : NonNeg db) (hu : UniqueIds db) (hamt : 0 < amount)
    (hsrc : get_account db uid fromName = some src) :
    deposit db uid name amount note ≠ .error .insufficientFunds ∧
    (transfer db uid fromName toName amount note = .error .insufficientFunds →
      src.balance_cents < amount) := by
  have hne0 : ¬ amount ≤ 0 := by omega
  obtain ⟨hsmem, _, _⟩ := get_account_spec hsrc
  constructor
  · cases hga : get_account db uid name with
    | none =>
      have hd : deposit db uid name amount note = .error .accountNotFound := by
        unfold deposit
        rw [if_neg hne0, hga]
      rw [hd]
      simp
    | some acc =>
      obtain ⟨hamem, _, _⟩ := get_account_spec hga
      have hfind : db.accounts.find? (fun b => b.id == acc.id) = some acc :=
        find?_id_of_unique hu hamem
      have hd : deposit db uid name amount note
          = (add_tx db acc.id ("deposit") amount note).map (fun db' => (db', none)) := by
        unfold deposit
        rw [if_neg hne0, hga]
      rw [add_tx_of_found hfind ("deposit") amount note] at hd
      have h0 : 0 ≤ acc.balance_cents := hnn acc hamem
      rw [if_neg (by omega)] at hd
      rw [hd]
      simp [Except.map]
  · intro htrans
    cases hga2 : get_account db uid toName with
    | none =>
      have h2 : transfer db uid fromName toName amount note = .error .accountNotFound := by
        unfold transfer
        rw [if_neg hne0, hsrc, hga2]
      rw [h2] at htrans
      exact absurd (Except.error.inj htrans) (by decide)
    | some dst =>
      obtain ⟨hdmem, _, _⟩ := get_account_spec hga2
      have htr : transfer db uid fromName toName amount note =
          (if src.id == dst.id then Except.error Err.sameAccountTransfer
           else match add_tx db src.id ("transfer_out") (-amount) note with
             | .error e => .error e
             | .ok db1 =>
               match add_tx db1 dst.id ("transfer_in") amount note with
               | .error e => .error e
               | .ok db2 => .ok (db2, none)) := by
        unfold transfer
        rw [if_neg hne0, hsrc, hga2]
      cases hid : (src.id == dst.id) with
      | true =>
        simp only [hid, if_true] at htr
        rw [htr] at htrans
        exact absurd (Except.error.inj htrans) (by decide)
      | false =>
        simp only [hid] at htr
        rw [if_neg (by simp : ¬ (false = true))] at htr
        by_cases hlt : src.balance_cents < amount
        · exact hlt
        · exfalso
          have hfind1 : db.accounts.find? (fun b => b.id == src.id) = some src :=
            find?_id_of_unique hu hsmem
          rw [add_tx_of_found hfind1 ("transfer_out") (-amount) note] at htr
          rw [if_neg (by omega)] at htr
          have htr2 : transfer db uid fromName toName amount note =
              match add_tx { db with
                  accounts := setBalance src.id (src.balance_cents + -amount) db.accounts,
                  txns := db.txns ++ [⟨db.nextTxId, src.id, ("transfer_out"), -amount,
                    src.balance_cents + -amount, note⟩],
                  nextTxId := db.nextTxId + 1 } dst.id ("transfer_in") amount note with
                | .error e => .error e
                | .ok db2 => .ok (db2, none) := htr
          have hdne : (dst.id == src.id) = false := by
            refine beq_eq_false_iff_ne.mpr (fun he => ?_)
            rw [he] at hid
            simp at hid
          have hfind2 : (setBalance src.id (src.balance_cents + -amount)
              db.accounts).find? (fun b => b.id == dst.id) = some dst := by
            rw [find?_setBalance, find?_id_of_unique hu hdmem]
            simp [Option.map, hdne]
          rw [add_tx_of_found hfind2 ("transfer_in") amount note] at htr2
          have h0 : 0 ≤ dst.balance_cents := hnn dst hdmem
          rw [if_neg (by omega)] at htr2
          rw [htr2] at htrans
          exact Except.noConfusion htrans

/-- C9 witness: on `dbAB` a deposit of 500 to "B" cannot fail with
InsufficientFunds, and if a 500-cent transfer A→B fails with
InsufficientFunds then A's balance (100) is below 500. -/
theorem no_spurious_insufficient_funds_witness :
    deposit dbAB 1 ("B") 500 ("") ≠ .error .insufficientFunds ∧
    (transfer dbAB 1 ("A") ("B") 500 ("") = .error .insufficientFunds →
      (100 : Int) < 500) :=
  no_spurious_insufficient_funds dbAB 1 ("B") ("A") ("B") 500 ("")
    ⟨0, 1, "A", "checking", 100⟩ (by decide) (by decide) (by decide) (by decide)

/-- C1: transfer atomicity — for distinct existing accounts of one user and
amount > 0 (on a well-formed non-negative store): if the debit would make
the source balance negative the whole operation fails with
InsufficientFunds and the store is unchanged (no entry on either account);
otherwise exactly two ledger entries are appended in one step —
`transfer_out` of −amount on the source and `transfer_in` of +amount on the
destination — and both balances are updated together in the same new
store. -/
theorem transfer_atomic (db : DB) (uid : Nat) (fromName toName : String)
    (amount : Int) (note : String) (src dst : Account)
    (hu : UniqueIds db) (hnn : NonNeg db) (hamt : 0 < amount)
    (hsrc : get_account db uid fromName = some src)
    (hdst : get_account db uid toName = some dst)
    (hne : src.id ≠ dst.id) :
    (src.balance_cents < amount →
      transfer db uid fromName toName amount note = .error .insufficientFunds ∧
      runOp db (.transfer uid fromName toName amount note) = db) ∧
    (amount ≤ src.balance_cents →
      transfer db uid fromName toName amount note = .ok ({ db with
        accounts := db.accounts.map (fun b =>
          if b.id == src.id then { b with balance_cents := src.balance_cents - amount }
          else if b.id == dst.id then { b with balance_cents := dst.balance_cents + amount }
          else b),
        txns := db.txns ++
          [⟨db.nextTxId, src.id, ("transfer_out"), -amount,
            src.balance_cents - amount, note⟩,
           ⟨db.nextTxId + 1, dst.id, ("transfer_in"), amount,
            dst.balance_cents + amount, note⟩],
        nextTxId := db.nextTxId + 2 }, none)) := by
  have hne0 : ¬ amount ≤ 0 := by omega
  obtain ⟨hsmem, _, _⟩ := get_account_spec hsrc
  obtain ⟨hdmem, _, _⟩ := get_account_spec hdst
  have hid : (src.id == dst.id) = false := beq_eq_false_iff_ne.mpr hne
  have htr : transfer db uid fromName toName amount note =
      (match add_tx db src.id ("transfer_out") (-amount) note with
        | .error e => .error e
        | .ok db1 =>
          match add_tx db1 dst.id ("transfer_in") amount note with
          | .error e => .error e
          | .ok db2 => .ok (db2, none)) := by
    unfold transfer
    rw [if_neg hne0, hsrc, hdst]
    simp only [hid]
    rw [if_neg (by simp : ¬ (false = true))]
  have hfind1 : db.accounts.find? (fun b => b.id == src.id) = some src :=
    find?_id_of_unique hu hsmem
  rw [add_tx_of_found hfind1 ("transfer_out") (-amount) note] at htr
  have hsub : src.balance_cents + -amount = src.balance_cents - amount := by ring
  rw [hsub] at htr
  constructor
  · intro hlt
    rw [if_pos (by omega)] at htr
    have h1 : transfer db uid fromName toName amount note
        = .error .insufficientFunds := by
      rw [htr]
    exact ⟨h1, by simp [runOp, step, h1, Except.map]⟩
  · intro hge
    rw [if_neg (by omega)] at htr
    have htr2 : transfer db uid fromName toName amount note =
        match add_tx { db with
            accounts := setBalance src.id (src.balance_cents - amount) db.accounts,
            txns := db.txns ++ [⟨db.nextTxId, src.id, ("transfer_out"), -amount,
              src.balance_cents - amount, note⟩],
            nextTxId := db.nextTxId + 1 } dst.id ("transfer_in") amount note with
          | .error e => .error e
          | .ok db2 => .ok (db2, none) := htr
    have hdne : (dst.id == src.id) = false :=
      beq_eq_false_iff_ne.mpr (fun he => hne he.symm)
    have hfind2 : (setBalance src.id (src.balance_cents - amount)
        db.accounts).find? (fun b => b.id == dst.id) = some dst := by
      rw [find?_setBalance, find?_id_of_unique hu hdmem]
      simp [Option.map, hdne]
    rw [add_tx_of_found hfind2 ("transfer_in") amount note] at htr2
    have h0 : 0 ≤ dst.balance_cents := hnn dst hdmem
    rw [if_neg (by omega)] at htr2
    rw [htr2]
    show Except.ok (DB.mk
        (setBalance dst.id (dst.balance_cents + amount)
          (setBalance src.id (src.balance_cents - amount) db.accounts))
        ((db.txns ++ [⟨db.nextTxId, src.id, ("transfer_out"), -amount,
            src.balance_cents - amount, note⟩])
          ++ [⟨db.nextTxId + 1, dst.id, ("transfer_in"), amount,
            dst.balance_cents + amount, note⟩])
        db.nextAccountId (db.nextTxId + 1 + 1), none) = _
    rw [setBalance_setBalance src.id dst.id (src.balance_cents - amount)
        (dst.balance_cents + amount) db.accounts (fun he => hne he.symm),
      List.append_assoc]
    rfl

/-- C1 witness: on `dbAB` (A: 100, B: 5), transferring 40 from A to B
produces exactly the store with balances 60 and 45 and the two new
`transfer_out`/`transfer_in` rows. -/
theorem transfer_atomic_witness :
    transfer dbAB 1 ("A") ("B") 40 ("") =
      .ok (⟨[⟨0, 1, "A", "checking", 60⟩, ⟨1, 1, "B", "savings", 45⟩],
            [⟨0, 0, "transfer_out", -40, 60, ""⟩, ⟨1, 1, "transfer_in", 40, 45, ""⟩],
            2, 2⟩, none) := by
  have h := (transfer_atomic dbAB 1 ("A") ("B") 40 ("")
    ⟨0, 1, "A", "checking", 100⟩ ⟨1, 1, "B", "savings", 5⟩
    (by decide) (by decide) (by decide) (by decide) (by decide) (by decide)).2
    (by decide)
  rw [h]
  rfl

/-- Every successful step is: a read-only step, one `create_account`, one
`add_tx`, or two chained `add_tx` (the transfer legs). -/
theorem step_cases {db db' : DB} {op : Op} (h : step db op = .ok db') :
    db' = db ∨
    (∃ uid name ty acc, create_account db uid name ty = .ok (db', acc)) ∨
    (∃ i k amt note, add_tx db i k amt note = .ok db') ∨
    (∃ i k amt note db1 i2 k2 amt2 note2,
      add_tx db i k amt note = .ok db1 ∧ add_tx db1 i2 k2 amt2 note2 = .ok db') := by
  cases op with
  | createAccount uid name ty =>
    simp only [step] at h
    cases hca : create_account db uid name ty with
    | error e => rw [hca] at h; exact Except.noConfusion h
    | ok pr =>
      rw [hca] at h
      have h2 : pr.1 = db' := Except.ok.inj h
      subst h2
      exact Or.inr (Or.inl ⟨uid, name, ty, pr.2, by rw [hca]⟩)
  | getHistory uid name limit =>
    simp only [step] at h
    cases hg : get_history db uid name limit with
    | error e => rw [hg] at h; exact Except.noConfusion h
    | ok rows => rw [hg] at h; exact Or.inl (Except.ok.inj h).symm
  | deposit uid name amount note =>
    simp only [step] at h
    unfold deposit at h
    by_cases h0 : amount ≤ 0
    · rw [if_pos h0] at h; exact Except.noConfusion h
    · rw [if_neg h0] at h
      cases hga : get_account db uid name with
      | none => rw [hga] at h; exact Except.noConfusion h
      | some acc =>
        rw [hga] at h
        have h' : Except.map Prod.fst (Except.map (fun d => (d, (none : Option Int)))
            (add_tx db acc.id ("deposit") amount note)) = .ok db' := h
        cases hax : add_tx db acc.id ("deposit") amount note with
        | error e => rw [hax] at h'; exact Except.noConfusion h'
        | ok d =>
          rw [hax] at h'
          have h2 : d = db' := Except.ok.inj h'
          exact Or.inr (Or.inr (Or.inl ⟨acc.id, ("deposit"), amount, note, h2 ▸ hax⟩))
  | withdraw uid name amount note =>
    simp only [step] at h
    unfold withdraw at h
    by_cases h0 : amount ≤ 0
    · rw [if_pos h0] at h; exact Except.noConfusion h
    · rw [if_neg h0] at h
      cases hga : get_account db uid name with
      | none => rw [hga] at h; exact Except.noConfusion h
      | some acc =>
        rw [hga] at h
        have h' : Except.map Prod.fst (Except.map (fun d => (d, (none : Option Int)))
            (add_tx db acc.id ("withdraw") (-amount) note)) = .ok db' := h
        cases hax : add_tx db acc.id ("withdraw") (-amount) note with
        | error e => rw [hax] at h'; exact Except.noConfusion h'
        | ok d =>
          rw [hax] at h'
          have h2 : d = db' := Except.ok.inj h'
          exact Or.inr (Or.inr (Or.inl ⟨acc.id, ("withdraw"), -amount, note, h2 ▸ hax⟩))
  | transfer uid f t amount note =>
    simp only [step] at h
    unfold transfer at h
    by_cases h0 : amount ≤ 0
    · rw [if_pos h0] at h; exact Except.noConfusion h
    · rw [if_neg h0] at h
      cases hga : get_account db uid f with
      | none => rw [hga] at h; exact Except.noConfusion h
      | some src =>
        rw [hga] at h
        cases hgb : get_account db uid t with
        | none => rw [hgb] at h; exact Except.noConfusion h
        | some dst =>
          rw [hgb] at h
          have hh : Except.map Prod.fst
              (if src.id == dst.id
               then (Except.error Err.sameAccountTransfer :
                  Except Err (DB × Option (Int × Int)))
               else match add_tx db src.id ("transfer_out") (-amount) note with
                 | .error e => .error e
                 | .ok db1 =>
                   match add_tx db1 dst.id ("transfer_in") amount note with
                   | .error e => .error e
                   | .ok db2 => .ok (db2, none)) = .ok db' := h
          by_cases hsd : (src.id == dst.id) = true
          · rw [if_pos hsd] at hh; exact Except.noConfusion hh
          · rw [if_neg hsd] at hh
            cases h1 : add_tx db src.id ("transfer_out") (-amount) note with
            | error e => rw [h1] at hh; exact Except.noConfusion hh
            | ok db1 =>
              rw [h1] at hh
              have h' : Except.map Prod.fst
                  (match add_tx db1 dst.id ("transfer_in") amount note with
                    | .error e => .error e
                    | .ok db2 => (.ok (db2, none) :
                        Except Err (DB × Option (Int × Int)))) = .ok db' := hh
              cases h2 : add_tx db1 dst.id ("transfer_in") amount note with
              | error e => rw [h2] at h'; exact Except.noConfusion h'
              | ok db2 =>
                rw [h2] at h'
                have h3 : db2 = db' := Except.ok.inj h'
                exact Or.inr (Or.inr (Or.inr ⟨src.id, ("transfer_out"), -amount, note,
                  db1, dst.id, ("transfer_in"), amount, note, h1, h3 ▸ h2⟩))

/-- A successful `add_tx` on a non-negative store keeps every balance
non-negative. -/
theorem add_tx_nonneg {db db' : DB} {i : Nat} {k : String} {amt : Int}
    {note : String} (hnn : NonNeg db) (hok : add_tx db i k amt note = .ok db') :
    NonNeg db' := by
  cases hfind : db.accounts.find? (fun b => b.id == i) with
  | none =>
    rw [add_tx_of_none hfind k amt note] at hok
    exact Except.noConfusion hok
  | some a =>
    rw [add_tx_of_found hfind k amt note] at hok
    by_cases hneg : a.balance_cents + amt < 0
    · rw [if_pos hneg] at hok; exact Except.noConfusion hok
    · rw [if_neg hneg] at hok
      have h2 := Except.ok.inj hok
      subst h2
      intro b' hb'
      obtain ⟨b, hbmem, hbeq⟩ := List.mem_map.mp hb'
      by_cases hbi : b.id = i
      · rw [← hbeq]
        simp [hbi]
        omega
      · rw [← hbeq]
        simp [hbi]
        exact hnn b hbmem

/-- A successful `create_account` yields the old store plus one account
with balance 0 (and a bumped id counter). -/
theorem create_account_ok {db : DB} {uid : Nat} {name ty : String}
    {db' : DB} {acc : Account}
    (h : create_account db uid name ty = .ok (db', acc)) :
    acc = ⟨db.nextAccountId, uid, name, ty, 0⟩ ∧
    db' = { db with
            accounts := db.accounts ++ [⟨db.nextAccountId, uid, name, ty, 0⟩],
            nextAccountId := db.nextAccountId + 1 } := by
  unfold create_account at h
  by_cases h1 : (!(ty == "checking" || ty == "savings")) = true
  · rw [if_pos h1] at h; exact Except.noConfusion h
  · rw [if_neg h1] at h
    by_cases h2 : (db.accounts.any (fun a => a.user_id == uid && a.name == name)) = true
    · rw [if_pos h2] at h; exact Except.noConfusion h
    · rw [if_neg h2] at h
      have h3 := Except.ok.inj h
      have h4 := congrArg Prod.fst h3
      have h5 := congrArg Prod.snd h3
      exact ⟨h5.symm, h4.symm⟩

/-- `runOp` keeps every balance non-negative. -/
theorem runOp_nonneg (db : DB) (op : Op) (hnn : NonNeg db) : NonNeg (runOp db op) := by
  unfold runOp
  cases hstep : step db op with
  | error e => exact hnn
  | ok db' =>
    rcases step_cases hstep with rfl | ⟨uid, name, ty, acc, hca⟩ |
      ⟨i, k, amt, note, hax⟩ | ⟨i, k, amt, note, db1, i2, k2, amt2, note2, hax1, hax2⟩
    · exact hnn
    · obtain ⟨-, rfl⟩ := create_account_ok hca
      intro b hb
      rcases List.mem_append.mp hb with hb | hb
      · exact hnn b hb
      · rcases List.mem_singleton.mp hb with rfl
        exact le_refl 0
    · exact add_tx_nonneg hnn hax
    · exact add_tx_nonneg (add_tx_nonneg hnn hax1) hax2

/-- C2: non-negative balance invariant — from any store in which every
balance is ≥ 0, any sequence of engine calls (createAccount, deposit,
withdraw, transfer, getHistory), whether each completes or fails, leads
only to stores in which every balance is ≥ 0. -/
theorem nonneg_invariant (db : DB) (ops : List Op) (h : NonNeg db) :
    NonNeg (run db ops) := by
  induction ops generalizing db with
  | nil => exact h
  | cons op rest ih =>
    have h2 : run db (op :: rest) = run (runOp db op) rest := by
      unfold run
      rw [List.foldl_cons]
    rw [h2]
    exact ih (runOp db op) (runOp_nonneg db op h)

/-- C2 witness: `dbAB` is non-negative, and stays so after a sample run of
all five operations. -/
theorem nonneg_invariant_witness :
    NonNeg dbAB ∧
    NonNeg (run dbAB [Op.deposit 1 ("A") 30 (""), Op.withdraw 1 ("A") 10 (""),
      Op.transfer 1 ("A") ("B") 5 (""), Op.getHistory 1 ("A") 20,
      Op.createAccount 1 ("C") ("savings"), Op.withdraw 1 ("B") 900 ("")]) :=
  ⟨by decide, nonneg_invariant dbAB
    [Op.deposit 1 ("A") 30 (""), Op.withdraw 1 ("A") 10 (""),
      Op.transfer 1 ("A") ("B") 5 (""), Op.getHistory 1 ("A") 20,
      Op.createAccount 1 ("C") ("savings"), Op.withdraw 1 ("B") 900 ("")]
    (by decide)⟩

theorem txnSum_append (l : List Txn) (t : Txn) (j : Nat) :
    (((l ++ [t]).filter (fun x => x.account_id == j)).map Txn.amount_cents).sum
      = ((l.filter (fun x => x.account_id == j)).map Txn.amount_cents).sum
        + (if (t.account_id == j) = true then t.amount_cents else 0) := by
  rw [List.filter_append]
  by_cases h : (t.account_id == j) = true <;> simp [h]

/-- A successful `add_tx` preserves well-formedness: the one touched
balance moves by exactly the amount of the one appended transaction. -/
theorem add_tx_wf {db db' : DB} {i : Nat} {k : String} {amt : Int}
    {note : String} (hwf : WellFormed db) (hok : add_tx db i k amt note = .ok db') :
    WellFormed db' := by
  obtain ⟨⟨hba, hbt, hbi⟩, hu, hc⟩ := hwf
  cases hfind : db.accounts.find? (fun b => b.id == i) with
  | none => rw [add_tx_of_none hfind k amt note] at hok; exact Except.noConfusion hok
  | some a =>
    rw [add_tx_of_found hfind k amt note] at hok
    by_cases hneg : a.balance_cents + amt < 0
    · rw [if_pos hneg] at hok; exact Except.noConfusion hok
    · rw [if_neg hneg] at hok
      have h2 := Except.ok.inj hok
      subst h2
      have hamem : a ∈ db.accounts := List.mem_of_find?_eq_some hfind
      have haid : a.id = i := by
        have h3 := List.find?_some hfind
        simpa using h3
      have hts : ∀ j : Nat, txnSum { db with
          accounts := setBalance i (a.balance_cents + amt) db.accounts,
          txns := db.txns ++ [⟨db.nextTxId, i, k, amt, a.balance_cents + amt, note⟩],
          nextTxId := db.nextTxId + 1 } j
          = txnSum db j + (if (i == j) = true then amt else 0) := by
        intro j
        unfold txnSum
        exact txnSum_append db.txns _ j
      refine ⟨⟨?_, ?_, ?_⟩, ?_, ?_⟩
      · intro b hb
        obtain ⟨b0, hb0, hbeq⟩ := List.mem_map.mp hb
        have hbid : b.id = b0.id := by
          rw [← hbeq]
          by_cases h : b0.id = i <;> simp [h]
        rw [hbid]
        exact hba b0 hb0
      · intro t ht
        rcases List.mem_append.mp ht with ht | ht
        · exact hbt t ht
        · rcases List.mem_singleton.mp ht with rfl
          show i < db.nextAccountId
          rw [← haid]
          exact hba a hamem
      · intro t ht
        rcases List.mem_append.mp ht with ht | ht
        · have h4 := hbi t ht
          show t.id < db.nextTxId + 1
          omega
        · rcases List.mem_singleton.mp ht with rfl
          show db.nextTxId < db.nextTxId + 1
          omega
      · show ((setBalance i _ db.accounts).map Account.id).Nodup
        rw [setBalance_map_id]
        exact hu
      · intro b hb
        obtain ⟨b0, hb0, hbeq⟩ := List.mem_map.mp hb
        subst hbeq
        rw [hts]
        by_cases hbi0 : b0.id = i
        · have hb0a : b0 = a := account_id_inj hu hb0 hamem (by rw [hbi0, haid])
          subst hb0a
          have hc0 := hc b0 hamem
          rw [haid] at hc0
          simp [hbi0]
          omega
        · have hcond : (b0.id == i) = false := beq_eq_false_iff_ne.mpr hbi0
          have hcond2 : (i == b0.id) = false :=
            beq_eq_false_iff_ne.mpr (fun he => hbi0 he.symm)
          simp [hcond, hcond2]
          exact hc b0 hb0

/-- A successful `create_account` preserves well-formedness: the new
account has a fresh id, balance 0, and no transactions. -/
theorem create_account_wf {db db' : DB} {uid : Nat} {name ty : String}
    {acc : Account} (hwf : WellFormed db)
    (h : create_account db uid name ty = .ok (db', acc)) : WellFormed db' := by
  obtain ⟨-, rfl⟩ := create_account_ok h
  obtain ⟨⟨hba, hbt, hbi⟩, hu, hc⟩ := hwf
  refine ⟨⟨?_, ?_, ?_⟩, ?_, ?_⟩
  · intro b hb
    rcases List.mem_append.mp hb with hb | hb
    · have h2 := hba b hb
      show b.id < db.nextAccountId + 1
      omega
    · rcases List.mem_singleton.mp hb with rfl
      show db.nextAccountId < db.nextAccountId + 1
      omega
  · intro t ht
    have h2 := hbt t ht
    show t.account_id < db.nextAccountId + 1
    omega
  · intro t ht
    exact hbi t ht
  · show ((db.accounts ++ [(⟨db.nextAccountId, uid, name, ty, 0⟩ : Account)]).map
      Account.id).Nodup
    rw [List.map_append, List.nodup_append]
    refine ⟨hu, List.nodup_singleton _, ?_⟩
    intro x hx hx2
    obtain ⟨b, hb, hbx⟩ := List.mem_map.mp hx
    have h3 : x = db.nextAccountId := by simpa using hx2
    have h2 := hba b hb
    omega
  · intro b hb
    rcases List.mem_append.mp hb with hb | hb
    · exact hc b hb
    · rcases List.mem_singleton.mp hb with rfl
      show (0 : Int) = txnSum _ db.nextAccountId
      unfold txnSum
      have h2 : db.txns.filter
          (fun x => x.account_id == db.nextAccountId) = [] := by
        rw [List.filter_eq_nil_iff]
        intro t ht
        have h3 := hbt t ht
        simp
        omega
      dsimp only
      rw [h2]
      rfl

/-- `runOp` preserves well-formedness. -/
theorem runOp_wf (db : DB) (op : Op) (hwf : WellFormed db) :
    WellFormed (runOp db op) := by
  unfold runOp
  cases hstep : step db op with
  | error e => exact hwf
  | ok db' =>
    rcases step_cases hstep with rfl | ⟨uid, name, ty, acc, hca⟩ |
      ⟨i, k, amt, note, hax⟩ | ⟨i, k, amt, note, db1, i2, k2, amt2, note2, hax1, hax2⟩
    · exact hwf
    · exact create_account_wf hwf hca
    · exact add_tx_wf hwf hax
    · exact add_tx_wf (add_tx_wf hwf hax1) hax2

/-- C3: balance-history consistency — starting from the empty store, after
any sequence of engine calls every account's balance equals the sum of the
signed amounts of its recorded transactions; and on any well-formed store,
every single call preserves that equality. -/
theorem balance_matches_history :
    (∀ ops : List Op, Consistent (run initDB ops)) ∧
    (∀ (db : DB) (op : Op), WellFormed db → Consistent (runOp db op)) := by
  have hrun : ∀ (ops : List Op) (db : DB), WellFormed db → WellFormed (run db ops) := by
    intro ops
    induction ops with
    | nil => intro db h; exact h
    | cons op rest ih =>
      intro db h
      have h2 : run db (op :: rest) = run (runOp db op) rest := by
        unfold run
        rw [List.foldl_cons]
      rw [h2]
      exact ih _ (runOp_wf db op h)
  have hinit : WellFormed initDB := by decide
  exact ⟨fun ops => (hrun ops initDB hinit).2.2, fun db op h => (runOp_wf db op h).2.2⟩

theorem orderedInsert_last {l : List Txn} {a : Txn}
    (h : ∀ b ∈ l, ¬ txLater a b) :
    List.orderedInsert txLater a l = l ++ [a] := by
  induction l with
  | nil => rfl
  | cons b t ih =>
    simp only [List.orderedInsert]
    rw [if_neg (h b (List.mem_cons_self b t)),
      ih (fun c hc => h c (List.mem_cons_of_mem b hc))]
    rfl

/-- Sorting a strictly-ascending-id transaction list by descending id is
exactly reversing it: ORDER BY id DESC on chronologically stored rows
yields most-recent-first order. -/
theorem insertionSort_eq_reverse {l : List Txn}
    (h : l.Pairwise (fun a b => a.id < b.id)) :
    List.insertionSort txLater l = l.reverse := by
  induction l with
  | nil => rfl
  | cons a t ih =>
    rw [List.pairwise_cons] at h
    have hlast : List.orderedInsert txLater a t.reverse = t.reverse ++ [a] :=
      orderedInsert_last (fun b hb => by
        have hb2 : b ∈ t := List.mem_reverse.mp hb
        have h3 := h.1 b hb2
        unfold txLater
        omega)
    simp only [List.insertionSort]
    rw [ih h.2, hlast, List.reverse_cons]

/-- A successful `add_tx` keeps transaction ids strictly increasing in
insertion order (the new row gets the fresh AUTOINCREMENT id). -/
theorem add_tx_sorted {db db' : DB} {i : Nat} {k : String} {amt : Int}
    {note : String} (hs : TxnsSortedAsc db)
    (hb : ∀ t ∈ db.txns, t.id < db.nextTxId)
    (hok : add_tx db i k amt note = .ok db') :
    TxnsSortedAsc db' ∧ ∀ t ∈ db'.txns, t.id < db'.nextTxId := by
  cases hfind : db.accounts.find? (fun b => b.id == i) with
  | none => rw [add_tx_of_none hfind k amt note] at hok; exact Except.noConfusion hok
  | some a =>
    rw [add_tx_of_found hfind k amt note] at hok
    by_cases hneg : a.balance_cents + amt < 0
    · rw [if_pos hneg] at hok; exact Except.noConfusion hok
    · rw [if_neg hneg] at hok
      have h2 := Except.ok.inj hok
      subst h2
      constructor
      · show (db.txns ++ [_]).Pairwise _
        rw [List.pairwise_append]
        refine ⟨hs, List.pairwise_singleton _ _, ?_⟩
        intro t ht u hu
        rcases List.mem_singleton.mp hu with rfl
        exact hb t ht
      · intro t ht
        rcases List.mem_append.mp ht with ht | ht
        · have h3 := hb t ht
          show t.id < db.nextTxId + 1
          omega
        · rcases List.mem_singleton.mp ht with rfl
          show db.nextTxId < db.nextTxId + 1
          omega

/-- Every reachable store has its transactions in strictly ascending id
order: `TxnsSortedAsc` is a reachable-state invariant. -/
theorem txns_sorted_run : ∀ ops : List Op, TxnsSortedAsc (run initDB ops) := by
  have hstep : ∀ (db : DB) (op : Op),
      TxnsSortedAsc db ∧ (∀ t ∈ db.txns, t.id < db.nextTxId) →
      TxnsSortedAsc (runOp db op) ∧
        (∀ t ∈ (runOp db op).txns, t.id < (runOp db op).nextTxId) := by
    intro db op h
    unfold runOp
    cases hstep2 : step db op with
    | error e => exact h
    | ok db' =>
      rcases step_cases hstep2 with rfl | ⟨uid, name, ty, acc, hca⟩ |
        ⟨i, k, amt, note, hax⟩ | ⟨i, k, amt, note, db1, i2, k2, amt2, note2, hax1, hax2⟩
      · exact h
      · obtain ⟨-, rfl⟩ := create_account_ok hca
        exact h
      · exact add_tx_sorted h.1 h.2 hax
      · obtain ⟨hs1, hb1⟩ := add_tx_sorted h.1 h.2 hax1
        exact add_tx_sorted hs1 hb1 hax2
  have hrun : ∀ (ops : List Op) (db : DB),
      TxnsSortedAsc db ∧ (∀ t ∈ db.txns, t.id < db.nextTxId) →
      TxnsSortedAsc (run db ops) ∧
        (∀ t ∈ (run db ops).txns, t.id < (run db ops).nextTxId) := by
    intro ops
    induction ops with
    | nil => intro db h; exact h
    | cons op rest ih =>
      intro db h
      have h2 : run db (op :: rest) = run (runOp db op) rest := by
        unfold run
        rw [List.foldl_cons]
      rw [h2]
      exact ih _ (hstep db op h)
  intro ops
  exact (hrun ops initDB (by decide)).1

/-- C7: `get_history` with the session's clamped limit — the limit is
clamped to [1, 200] (and the default input "20" stays 20); the call fails
with AccountNotFound exactly when the account does not exist for this
user; and on success the returned rows are sorted most recent first
(descending ids), at most `limit` many, each belonging to the account —
and, on any store whose transactions are in chronological (ascending-id)
order as every reachable store is (`txns_sorted_run`), the rows are
EXACTLY the account's own transactions, most recent first, truncated to
the limit. -/
theorem get_history_clamped (db : DB) (uid : Nat) (name : String) (n : Int)
    (rows : List Txn) :
    (1 ≤ clampLimit n ∧ clampLimit n ≤ 200 ∧ clampLimit 20 = 20) ∧
    (get_history db uid name (clampLimit n) = .error .accountNotFound
        ↔ get_account db uid name = none) ∧
    (get_history db uid name (clampLimit n) = .ok rows →
      List.Pairwise txLater rows ∧ rows.length ≤ (clampLimit n).toNat ∧
      (∃ acc, get_account db uid name = some acc ∧
        (∀ t ∈ rows, t ∈ db.txns ∧ t.account_id = acc.id) ∧
        (TxnsSortedAsc db →
          rows = ((db.txns.filter (fun t => t.account_id == acc.id)).reverse).take
            (clampLimit n).toNat))) := by
  have hcl : 1 ≤ clampLimit n ∧ clampLimit n ≤ 200 := by
    unfold clampLimit
    omega
  have hnneg : ¬ (clampLimit n < 0) := by omega
  refine ⟨⟨hcl.1, hcl.2, by decide⟩, ?_, ?_⟩
  · cases hga : get_account db uid name with
    | none =>
      have h2 : get_history db uid name (clampLimit n) = .error .accountNotFound := by
        unfold get_history
        rw [hga]
      simp [h2]
    | some acc =>
      have h2 : get_history db uid name (clampLimit n) =
          .ok ((List.insertionSort txLater
            (db.txns.filter (fun t => t.account_id == acc.id))).take
              (clampLimit n).toNat) := by
        unfold get_history
        rw [hga]
        dsimp only
        rw [if_neg hnneg]
      rw [h2]
      simp
  · intro hok
    cases hga : get_account db uid name with
    | none =>
      have h2 : get_history db uid name (clampLimit n) = .error .accountNotFound := by
        unfold get_history
        rw [hga]
      rw [h2] at hok
      exact Except.noConfusion hok
    | some acc =>
      have h2 : get_history db uid name (clampLimit n) =
          .ok ((List.insertionSort txLater
            (db.txns.filter (fun t => t.account_id == acc.id))).take
              (clampLimit n).toNat) := by
        unfold get_history
        rw [hga]
        dsimp only
        rw [if_neg hnneg]
      rw [h2] at hok
      have hrows := Except.ok.inj hok
      subst hrows
      refine ⟨?_, ?_, acc, rfl, ?_, ?_⟩
      · exact List.Pairwise.sublist (List.take_sublist _ _)
          (List.sorted_insertionSort txLater _)
      · rw [List.length_take]
        exact min_le_left _ _
      · intro t ht
        have ht2 : t ∈ List.insertionSort txLater
            (db.txns.filter (fun x => x.account_id == acc.id)) :=
          (List.take_sublist _ _).mem ht
        have ht3 : t ∈ db.txns.filter (fun x => x.account_id == acc.id) :=
          (List.perm_insertionSort txLater _).mem_iff.mp ht2
        have ht4 := List.mem_filter.mp ht3
        exact ⟨ht4.1, by simpa using ht4.2⟩
      · intro hsort
        rw [insertionSort_eq_reverse (List.Pairwise.filter _ hsort)]

/-- C7 witness: on a store with three transactions on account 0 (ids 0,
1, 2 in insertion order), asking for 2 rows returns exactly the two most
recent rows, ids 2 then 1 — the most-recent-first truncation of the
account's history. -/
theorem get_history_clamped_witness :
    get_history dbH 1 ("Checking") (clampLimit 2) =
      .ok [⟨2, 0, "withdraw", -50, 150, ""⟩, ⟨1, 0, "deposit", 100, 200, ""⟩] ∧
    TxnsSortedAsc dbH ∧
    ((dbH.txns.filter (fun t => t.account_id == 0)).reverse).take
        (clampLimit 2).toNat
      = [⟨2, 0, "withdraw", -50, 150, ""⟩, ⟨1, 0, "deposit", 100, 200, ""⟩] := by
  refine ⟨by decide, by decide, by decide⟩

end YounisBank
